import Mathlib

/-!
Verification development for the claude-code-proxy (ccp) core:
a shallow embedding of the session store (src/session.ts), the
working-directory state machine and the stream translator
(src/completions.ts), with the OpenAI-compatible data model of
src/types.ts and the text extractor of src/utils.ts.

Machine integers of the source (token counters, timestamps) are
modelled as Nat and Int; external collaborators (the file system,
Node path normalization) are parameters of the embedding.
-/

set_option maxRecDepth 10000

/- ───────────────────────── Data model (src/types.ts) ───────────────────────── -/

/-- Message roles of the OpenAI wire format. -/
inductive Role where
  | system
  | user
  | assistant
deriving DecidableEq, Repr

/-- Discriminant of a content part: "text" or "image_url". -/
inductive PartType where
  | text
  | image_url
deriving DecidableEq, Repr

/-- The image_url object of a content part. -/
structure ImageUrl where
  url : String
  detail : Option String
deriving DecidableEq, Repr

/-- One element of a structured content array (OAIContentPart). -/
structure OAIContentPart where
  type : PartType
  text : Option String
  image_url : Option ImageUrl
deriving DecidableEq, Repr

/-- Message content: plain text or an ordered sequence of parts. -/
inductive OAIContent where
  | str (s : String)
  | parts (ps : List OAIContentPart)
deriving DecidableEq, Repr

/-- One conversation message (OAIMessage). -/
structure OAIMessage where
  role : Role
  content : OAIContent
deriving DecidableEq, Repr

/-- getTextContent of src/utils.ts: a plain string is returned as is; a
part array keeps the parts whose type is "text" and whose text field is a
truthy (present, non-empty) string, and joins their texts with newlines. -/
def getTextContent : OAIContent → String
  | .str s => s
  | .parts ps =>
    String.intercalate "\n"
      ((ps.filter (fun p => p.type = PartType.text &&
          match p.text with
          | some t => t ≠ ""
          | none => false)).map (fun p => p.text.getD ""))

/- ──────────────── JSON serialization (JSON.stringify in hashMessages) ──────────────── -/

/-- Hex digit characters used by JSON \u escapes (lower case, as emitted
by JSON.stringify). -/
def hexChar (n : Nat) : Char :=
  if n < 10 then Char.ofNat (48 + n) else Char.ofNat (97 + (n - 10))

/-- Per-character escaping of JSON.stringify: a double quote and a
backslash get a backslash escape, control characters below 0x20 get their
short names or a \u00XX escape, everything else is emitted verbatim. -/
def escChar (c : Char) : List Char :=
  if c = '"' then ['\\', '"']
  else if c = '\\' then ['\\', '\\']
  else if c = '\x08' then ['\\', 'b']
  else if c = '\x09' then ['\\', 't']
  else if c = '\x0a' then ['\\', 'n']
  else if c = '\x0c' then ['\\', 'f']
  else if c = '\x0d' then ['\\', 'r']
  else if c.toNat < 0x20 then
    let lo := hexChar (c.toNat % 16)
    let hi := hexChar (c.toNat / 16)
    '\\' :: 'u' :: '0' :: '0' :: hi :: [lo]
  else [c]

/-- Escape a character sequence for a JSON string literal. -/
def escapeChars : List Char → List Char
  | [] => []
  | c :: cs => escChar c ++ escapeChars cs

/-- A JSON string literal: quote, escaped body, quote. -/
def jsonString (s : List Char) : List Char :=
  '"' :: escapeChars s ++ ['"']

/-- The JSON spelling of a role. -/
def roleChars : Role → List Char
  | .system => "system".data
  | .user => "user".data
  | .assistant => "assistant".data

/-- The JSON spelling of a content-part type. -/
def partTypeChars : PartType → List Char
  | .text => "text".data
  | .image_url => "image_url".data

/-- The characters of the JSON key-value prefix for the url field,
including the opening quote of the key and the colon. -/
def urlKey : List Char := ['"', 'u', 'r', 'l', '"', ':']

/-- Key prefix for an optional detail field, including the separating comma. -/
def detailKey : List Char := [',', '"', 'd', 'e', 't', 'a', 'i', 'l', '"', ':']

/-- Key prefix for the type field of a content part. -/
def typeKey : List Char := ['"', 't', 'y', 'p', 'e', '"', ':']

/-- Key prefix for an optional text field, including the separating comma. -/
def textKey : List Char := [',', '"', 't', 'e', 'x', 't', '"', ':']

/-- Key prefix for an optional image_url field, including the separating comma. -/
def imageKey : List Char := [',', '"', 'i', 'm', 'a', 'g', 'e', '_', 'u', 'r', 'l', '"', ':']

/-- Key prefix for the role field of a message. -/
def roleKey : List Char := ['"', 'r', 'o', 'l', 'e', '"', ':']

/-- Key prefix for the content field of a message, including the comma. -/
def contentKey : List Char := [',', '"', 'c', 'o', 'n', 't', 'e', 'n', 't', '"', ':']

/-- Everything of a serialized image_url object after the opening brace. -/
def serializeImageUrlBody (iu : ImageUrl) : List Char :=
  urlKey ++ jsonString iu.url.data ++
    (match iu.detail with
     | some d => detailKey ++ jsonString d.data
     | none => []) ++ ['\x7d']

/-- JSON.stringify of an image_url object, omitting an absent detail. -/
def serializeImageUrl (iu : ImageUrl) : List Char :=
  '\x7b' :: serializeImageUrlBody iu

/-- Everything of a serialized content part after the opening brace. -/
def serializePartBody (p : OAIContentPart) : List Char :=
  typeKey ++ jsonString (partTypeChars p.type) ++
    (match p.text with
     | some t => textKey ++ jsonString t.data
     | none => []) ++
    (match p.image_url with
     | some iu => imageKey ++ serializeImageUrl iu
     | none => []) ++ ['\x7d']

/-- JSON.stringify of one content part, omitting absent optional fields. -/
def serializePart (p : OAIContentPart) : List Char :=
  '\x7b' :: serializePartBody p

/-- Comma-separated serialization of a part list (the body of a JSON array). -/
def serializePartsTail : List OAIContentPart → List Char
  | [] => []
  | [p] => serializePart p
  | p :: ps => serializePart p ++ ',' :: serializePartsTail ps

/-- JSON.stringify of message content: a string or an array of parts. -/
def serializeContent : OAIContent → List Char
  | .str s => jsonString s.data
  | .parts ps => '[' :: serializePartsTail ps ++ [']']

/-- Everything of a serialized message after the opening brace. -/
def serializeMessageBody (m : OAIMessage) : List Char :=
  roleKey ++ jsonString (roleChars m.role) ++
    contentKey ++ serializeContent m.content ++ ['\x7d']

/-- JSON.stringify of one message: role then content, in declaration order. -/
def serializeMessage (m : OAIMessage) : List Char :=
  '\x7b' :: serializeMessageBody m

/-- Comma-separated serialization of a message list. -/
def serializeMessagesTail : List OAIMessage → List Char
  | [] => []
  | [m] => serializeMessage m
  | m :: ms => serializeMessage m ++ ',' :: serializeMessagesTail ms

/-- JSON.stringify of a message array: the hashing payload of
hashMessages in src/session.ts. -/
def serializeMessages (ms : List OAIMessage) : List Char :=
  '[' :: serializeMessagesTail ms ++ [']']

/-- The payload string JSON.stringify(messages) of hashMessages. -/
def stringifyMessages (ms : List OAIMessage) : String :=
  ⟨serializeMessages ms⟩

/- ──────────────── A parser for the serializer's image (injectivity) ──────────────── -/

/-- Consume an expected literal character sequence from the input. -/
def dropLit : List Char → List Char → Option (List Char)
  | [], input => some input
  | c :: cs, d :: ds => if c = d then dropLit cs ds else none
  | _ :: _, [] => none

/-- Numeric value of a lower-case hex digit character. -/
def hexVal (c : Char) : Nat :=
  if 97 ≤ c.toNat then c.toNat - 87 else c.toNat - 48

/-- Parse the body of a JSON string literal up to its closing quote,
undoing the escapes of escChar. -/
def parseStrBody : List Char → Option (List Char × List Char)
  | [] => none
  | c :: rest =>
    if c = '"' then some ([], rest)
    else if c = '\\' then
      match rest with
      | [] => none
      | d :: r2 =>
        if d = 'u' then
          match r2 with
          | a :: b :: w :: x :: r3 =>
            (parseStrBody r3).map (fun r =>
              (Char.ofNat (hexVal a * 4096 + hexVal b * 256 + hexVal w * 16 + hexVal x) :: r.1,
                r.2))
          | _ => none
        else if d = '"' then (parseStrBody r2).map (fun r => ('"' :: r.1, r.2))
        else if d = '\\' then (parseStrBody r2).map (fun r => ('\\' :: r.1, r.2))
        else if d = 'b' then (parseStrBody r2).map (fun r => ('\x08' :: r.1, r.2))
        else if d = 't' then (parseStrBody r2).map (fun r => ('\x09' :: r.1, r.2))
        else if d = 'n' then (parseStrBody r2).map (fun r => ('\x0a' :: r.1, r.2))
        else if d = 'f' then (parseStrBody r2).map (fun r => ('\x0c' :: r.1, r.2))
        else if d = 'r' then (parseStrBody r2).map (fun r => ('\x0d' :: r.1, r.2))
        else none
    else (parseStrBody rest).map (fun r => (c :: r.1, r.2))

/-- Parse a whole JSON string literal. -/
def parseJString : List Char → Option (List Char × List Char)
  | '"' :: rest => parseStrBody rest
  | _ => none

/-- Recover a role from its JSON spelling. -/
def roleOfChars (cs : List Char) : Option Role :=
  if cs = "system".data then some .system
  else if cs = "user".data then some .user
  else if cs = "assistant".data then some .assistant
  else none

/-- Recover a part type from its JSON spelling. -/
def partTypeOfChars (cs : List Char) : Option PartType :=
  if cs = "text".data then some .text
  else if cs = "image_url".data then some .image_url
  else none

/-- Parse a serialized image_url object. -/
def parseImageUrl : List Char → Option (ImageUrl × List Char)
  | '\x7b' :: r0 => do
    let r1 ← dropLit urlKey r0
    let (url, r2) ← parseJString r1
    match r2 with
    | '\x7d' :: r3 => some (⟨⟨url⟩, none⟩, r3)
    | _ => do
      let r3 ← dropLit detailKey r2
      let (d, r4) ← parseJString r3
      match r4 with
      | '\x7d' :: r5 => some (⟨⟨url⟩, some ⟨d⟩⟩, r5)
      | _ => none
  | _ => none

/-- Parse one serialized content part. -/
def parsePart : List Char → Option (OAIContentPart × List Char)
  | '\x7b' :: r0 => do
    let r1 ← dropLit typeKey r0
    let (tyChars, r2) ← parseJString r1
    let ty ← partTypeOfChars tyChars
    let (txt, r3) ← (match dropLit textKey r2 with
      | some r => (parseJString r).map (fun p => (some (String.mk p.1), p.2))
      | none => some ((none : Option String), r2))
    let (iu, r4) ← (match dropLit imageKey r3 with
      | some r => (parseImageUrl r).map (fun p => (some p.1, p.2))
      | none => some ((none : Option ImageUrl), r3))
    match r4 with
    | '\x7d' :: r5 => some (⟨ty, txt, iu⟩, r5)
    | _ => none
  | _ => none

/-- Parse a non-empty comma-separated part sequence up to the closing
bracket, spending one unit of fuel per part. -/
def parsePartsAux : Nat → List Char → Option (List OAIContentPart × List Char)
  | 0, _ => none
  | fuel + 1, input => do
    let (p, rest) ← parsePart input
    match rest with
    | ',' :: r2 => (parsePartsAux fuel r2).map (fun q => (p :: q.1, q.2))
    | ']' :: r2 => some ([p], r2)
    | _ => none

/-- Parse a serialized content value: a string literal or a part array. -/
def parseContent (fuel : Nat) : List Char → Option (OAIContent × List Char)
  | '"' :: rest => (parseStrBody rest).map (fun r => (.str ⟨r.1⟩, r.2))
  | '[' :: ']' :: rest => some (.parts [], rest)
  | '[' :: rest => (parsePartsAux fuel rest).map (fun r => (.parts r.1, r.2))
  | _ => none

/-- Parse one serialized message. -/
def parseMessage (fuel : Nat) : List Char → Option (OAIMessage × List Char)
  | '\x7b' :: r0 => do
    let r1 ← dropLit roleKey r0
    let (rChars, r2) ← parseJString r1
    let role ← roleOfChars rChars
    let r3 ← dropLit contentKey r2
    let (c, r4) ← parseContent fuel r3
    match r4 with
    | '\x7d' :: r5 => some (⟨role, c⟩, r5)
    | _ => none
  | _ => none

/-- Parse a non-empty comma-separated message sequence up to the closing
bracket, spending one unit of fuel per message. -/
def parseMessagesAux : Nat → List Char → Option (List OAIMessage × List Char)
  | 0, _ => none
  | fuel + 1, input => do
    let (m, rest) ← parseMessage (fuel + 1) input
    match rest with
    | ',' :: r2 => (parseMessagesAux fuel r2).map (fun q => (m :: q.1, q.2))
    | ']' :: r2 => some ([m], r2)
    | _ => none

/-- Parse a serialized message array. -/
def parseMessagesTop (fuel : Nat) : List Char → Option (List OAIMessage × List Char)
  | '[' :: ']' :: rest => some ([], rest)
  | '[' :: rest => parseMessagesAux fuel rest
  | _ => none

/-- Fuel needed by the part-list loop of a content value. -/
def contentFuel : OAIContent → Nat
  | .str _ => 0
  | .parts ps => ps.length

/-- A fuel bound sufficient for the whole message-array parse. -/
def messagesFuel (ms : List OAIMessage) : Nat :=
  ms.length + (ms.map (fun m => contentFuel m.content)).sum

/- ──────────────── SHA-256 (createHash("sha256") in src/session.ts) ──────────────── -/

/-- UTF-8 encoding of one unicode scalar, as the byte view of the payload
string that the hash update consumes. -/
def utf8Encode (c : Char) : List Nat :=
  let n := c.toNat
  if n < 0x80 then [n]
  else if n < 0x800 then [0xC0 + n / 64, 0x80 + n % 64]
  else if n < 0x10000 then [0xE0 + n / 4096, 0x80 + (n / 64) % 64, 0x80 + n % 64]
  else [0xF0 + n / 262144, 0x80 + (n / 4096) % 64, 0x80 + (n / 64) % 64, 0x80 + n % 64]

/-- The UTF-8 bytes of a string. -/
def strBytes (s : String) : List Nat :=
  s.data.foldr (fun c acc => utf8Encode c ++ acc) []

/-- Truncation to a 32-bit word. -/
def w32 (n : Nat) : Nat := n % 4294967296

/-- Right rotation of a 32-bit word. -/
def rotr (k n : Nat) : Nat := n / 2 ^ k + n % 2 ^ k * 2 ^ (32 - k)

/-- Bitwise complement of a 32-bit word. -/
def not32 (n : Nat) : Nat := 4294967295 - w32 n

/-- The SHA-256 round constants (decimal spellings of the FIPS 180-4
words). -/
def sha256K : List Nat :=
  [
   1116352408, 1899447441, 3049323471, 3921009573, 961987163,
   1508970993, 2453635748, 2870763221, 3624381080, 310598401,
   607225278, 1426881987, 1925078388, 2162078206, 2614888103,
   3248222580, 3835390401, 4022224774, 264347078, 604807628,
   770255983, 1249150122, 1555081692, 1996064986, 2554220882,
   2821834349, 2952996808, 3210313671, 3336571891, 3584528711,
   113926993, 338241895, 666307205, 773529912, 1294757372,
   1396182291, 1695183700, 1986661051, 2177026350, 2456956037,
   2730485921, 2820302411, 3259730800, 3345764771, 3516065817,
   3600352804, 4094571909, 275423344, 430227734, 506948616,
   659060556, 883997877, 958139571, 1322822218, 1537002063,
   1747873779, 1955562222, 2024104815, 2227730452, 2361852424,
   2428436474, 2756734187, 3204031479, 3329325298]

/-- The SHA-256 initial hash value (decimal spellings). -/
def sha256H0 : List Nat :=
  [
   1779033703, 3144134277, 1013904242, 2773480762, 1359893119,
   2600822924, 528734635, 1541459225]

/-- The big-endian eight-byte encoding of the bit length. -/
def lenBytes (len : Nat) : List Nat :=
  [(8 * len / 2 ^ 56) % 256, (8 * len / 2 ^ 48) % 256, (8 * len / 2 ^ 40) % 256,
   (8 * len / 2 ^ 32) % 256, (8 * len / 2 ^ 24) % 256, (8 * len / 2 ^ 16) % 256,
   (8 * len / 2 ^ 8) % 256, (8 * len) % 256]

/-- SHA-256 message padding: a 0x80 byte, zeros to 56 mod 64, and the
bit length. -/
def padMessage (msg : List Nat) : List Nat :=
  let rem := (msg.length + 9) % 64
  let zeros := if rem = 0 then 0 else 64 - rem
  msg ++ 0x80 :: List.replicate zeros 0 ++ lenBytes msg.length

/-- Split the padded byte sequence into 64-byte blocks. -/
def toBlocks (bs : List Nat) : List (List Nat) :=
  if h : bs = [] then []
  else bs.take 64 :: toBlocks (bs.drop 64)
termination_by bs.length
decreasing_by
  simp only [List.length_drop]
  have := List.length_pos.mpr h
  omega

/-- A 32-bit word of a block read big-endian. -/
def blockWord (block : List Nat) (i : Nat) : Nat :=
  block.getD (4 * i) 0 % 256 * 2 ^ 24 + block.getD (4 * i + 1) 0 % 256 * 2 ^ 16 +
    block.getD (4 * i + 2) 0 % 256 * 2 ^ 8 + block.getD (4 * i + 3) 0 % 256

/-- The first small sigma function of the message schedule. -/
def smallSigma0 (x : Nat) : Nat :=
  Nat.xor (Nat.xor (rotr 7 x) (rotr 18 x)) (x / 2 ^ 3)

/-- The second small sigma function of the message schedule. -/
def smallSigma1 (x : Nat) : Nat :=
  Nat.xor (Nat.xor (rotr 17 x) (rotr 19 x)) (x / 2 ^ 10)

/-- The first big sigma function of the compression loop. -/
def bigSigma0 (x : Nat) : Nat :=
  Nat.xor (Nat.xor (rotr 2 x) (rotr 13 x)) (rotr 22 x)

/-- The second big sigma function of the compression loop. -/
def bigSigma1 (x : Nat) : Nat :=
  Nat.xor (Nat.xor (rotr 6 x) (rotr 11 x)) (rotr 25 x)

/-- The choice function of the compression loop. -/
def chFn (x y z : Nat) : Nat :=
  Nat.xor (Nat.land x y) (Nat.land (not32 x) z)

/-- The majority function of the compression loop. -/
def majFn (x y z : Nat) : Nat :=
  Nat.xor (Nat.xor (Nat.land x y) (Nat.land x z)) (Nat.land y z)

/-- The message schedule, most recent word first. -/
def schedRev (block : List Nat) : Nat → List Nat
  | 0 => []
  | i + 1 =>
    let prev := schedRev block i
    let wi :=
      if i < 16 then blockWord block i
      else
        w32 (smallSigma1 (prev.getD 1 0) + prev.getD 6 0 + smallSigma0 (prev.getD 14 0) +
          prev.getD 15 0)
    wi :: prev

/-- One round of the compression loop on the eight-word state. -/
def sha256Round (st : List Nat) (kw : Nat × Nat) : List Nat :=
  match st with
  | [a, b, c, d, e, f, g, hh] =>
    let t1 := w32 (hh + bigSigma1 e + chFn e f g + kw.1 + kw.2)
    let t2 := w32 (bigSigma0 a + majFn a b c)
    [w32 (t1 + t2), a, b, c, w32 (d + t1), e, f, g]
  | _ => st

/-- Process one 64-byte block into the running hash value. -/
def sha256Block (h : List Nat) (block : List Nat) : List Nat :=
  let ws := (schedRev block 64).reverse
  let st := (sha256K.zip ws).foldl sha256Round h
  List.zipWith (fun x y => w32 (x + y)) h st

/-- The eight 32-bit words of the SHA-256 hash of a byte sequence. -/
def sha256Words (msg : List Nat) : List Nat :=
  (toBlocks (padMessage msg)).foldl sha256Block sha256H0

/-- The digest words, each truncated to 32 bits. -/
def digestWords (msg : List Nat) : List Nat :=
  (List.range 8).map (fun i => (sha256Words msg).getD i 0 % 4294967296)

/-- The digest read as one big-endian natural number below 2 ^ 256. -/
def digestNat (msg : List Nat) : Nat :=
  (digestWords msg).foldl (fun a x => a * 4294967296 + x) 0

/-- hashMessages of src/session.ts: the lower-case hex SHA-256 digest of
JSON.stringify(messages). -/
def hashMessages (messages : List OAIMessage) : String :=
  ⟨(List.range 64).map (fun i =>
    hexChar (digestNat (strBytes (stringifyMessages messages)) / 16 ^ (63 - i) % 16))⟩

/-- A one-message context whose only content is a run of the letter a. -/
def unaryCtx (n : Nat) : List OAIMessage :=
  [⟨.user, .str ⟨List.replicate n 'a'⟩⟩]

/- ──────────────── Session store (src/session.ts) ──────────────── -/

/-- One stored entry of the session map. -/
structure SessionEntry where
  sessionId : String
  createdAt : Int
deriving DecidableEq, Repr

/-- The in-memory session map keyed by digest strings, modelled as a
function from keys to optional entries (state passed explicitly). -/
def Sessions : Type := String → Option SessionEntry

/-- The initial empty map. -/
def emptySessions : Sessions := fun _ => none

/-- lookupSession of src/session.ts: none for an empty context, otherwise
the stored sessionId under the context digest, if any.  Modelled as a
pure function of the store, so it cannot mutate it. -/
def lookupSession (contextMessages : List OAIMessage) (s : Sessions) : Option String :=
  if contextMessages.length = 0 then none
  else
    match s (hashMessages contextMessages) with
    | some e => some e.sessionId
    | none => none

/-- storeSession of src/session.ts: insert or overwrite the entry under
the context digest with the given id and the current timestamp. -/
def storeSession (contextMessages : List OAIMessage) (sessionId : String) (now : Int)
    (s : Sessions) : Sessions :=
  fun k => if k = hashMessages contextMessages then some ⟨sessionId, now⟩ else s k

/-- cleanupSessions of src/session.ts: delete every entry strictly older
than the ttl relative to now. -/
def cleanupSessions (ttlMs : Int) (now : Int) (s : Sessions) : Sessions :=
  fun k =>
    match s k with
    | some e => if now - e.createdAt > ttlMs then none else some e
    | none => none

/-- JS String.prototype.startsWith, on the character lists (kernel
computable, unlike the byte-position based core function). -/
def strStartsWith (s pre : String) : Bool := pre.data.isPrefixOf s.data

/-- JS String.prototype.trim: whitespace stripped from both ends. -/
def jsTrim (s : String) : String :=
  ⟨((s.data.dropWhile Char.isWhitespace).reverse.dropWhile Char.isWhitespace).reverse⟩

/- ──────────── Working-directory state machine (src/completions.ts) ──────────── -/

/-- The file-system and path collaborators of completions.ts, passed as
parameters of the embedding: the HOME environment variable, Node's
resolve-of-normalize, existsSync, the isDirectory statSync check (false
when statSync throws), and realpathSync (none when it throws). -/
structure FsEnv where
  home : String
  normResolve : String → String
  pathExists : String → Bool
  isDirStat : String → Bool
  realpath : String → Option String

/-- isValidDirectory of completions.ts. -/
def isValidDirectory (env : FsEnv) (path : String) : Bool :=
  env.pathExists path && env.isDirStat path

/-- resolvePath of completions.ts: tilde expansion or an absolute path,
normalization, a blocked-prefix check, then symlink resolution of
existing paths. -/
def resolvePath (env : FsEnv) (text : String) : Option String :=
  let r0opt :=
    if strStartsWith text "~" then some (env.home ++ text.drop 1)
    else if strStartsWith text "/" then some text
    else none
  match r0opt with
  | none => none
  | some r0 =>
    let r1 := env.normResolve r0
    if ["/proc", "/sys", "/dev"].any (fun pre => strStartsWith r1 pre) then none
    else
      some (if env.pathExists r1 then
        match env.realpath r1 with
        | some rp => rp
        | none => r1
      else r1)

/-- The synthetic prompt message (the source file stores the marker
characters U+00F0 U+0178 U+201C, a double-encoded folder emoji). -/
def pathPromptText : String :=
  "ðŸ“ Please enter the working directory path (e.g.: ~/projects/myapp)"

/-- The synthetic rejection message (marker characters U+00E2 U+0152). -/
def pathInvalidText : String :=
  "âŒ Invalid directory path. Please enter a valid existing directory path (e.g.: ~/projects/myapp)"

/-- The synthetic confirmation message for a path (marker characters
U+00E2 U+0153 U+2026). -/
def pathConfirmedText (p : String) : String :=
  "âœ… Working directory set: `" ++ p ++
    "`\n\nNow working in this directory. How can I help you?"

/-- The marker prefix of the synthetic confirmation message. -/
def confirmedMarker : String := "âœ…"

/-- The marker prefix of the synthetic prompt message. -/
def promptMarker : String := "ðŸ“"

/-- The marker prefix of the synthetic rejection message. -/
def invalidMarker : String := "âŒ"

/-- The outcome of the working-directory decision of handleChatCompletions. -/
inductive WDDecision where
  | needPrompt
  | invalid
  | confirmed (path : String)
  | useDefault (forward : List OAIMessage)
  | resume (path : String) (forward : List OAIMessage)
deriving DecidableEq, Repr

/-- The validity test of the scan loop of handleChatCompletions: the
trimmed text must resolve to a truthy path that is a valid directory. -/
def confirmCandidate (env : FsEnv) (m : OAIMessage) : Option String :=
  match resolvePath env (jsTrim (getTextContent m.content)) with
  | some r => if r = "" then none else if isValidDirectory env r then some r else none
  | none => none

/-- The scan of handleChatCompletions over the user/assistant-only
subsequence: the first user message that passes confirmCandidate and is
immediately followed by an assistant message wins; the returned list is
the input without that pair. -/
def findPair (env : FsEnv) : List OAIMessage → Option (String × List OAIMessage)
  | [] => none
  | m :: rest =>
    if m.role = Role.user then
      match confirmCandidate env m with
      | some r =>
        match rest with
        | m2 :: rest2 =>
          if m2.role = Role.assistant then some (r, rest2)
          else (findPair env rest).map (fun q => (q.1, m :: q.2))
        | [] => none
      | none => (findPair env rest).map (fun q => (q.1, m :: q.2))
    else (findPair env rest).map (fun q => (q.1, m :: q.2))

/-- Whether an assistant message counts as a real (non-synthetic)
response: its text starts with none of the three marker prefixes. -/
def isRealAssistant (m : OAIMessage) : Bool :=
  m.role == Role.assistant &&
    !strStartsWith (getTextContent m.content) confirmedMarker &&
    !strStartsWith (getTextContent m.content) promptMarker &&
    !strStartsWith (getTextContent m.content) invalidMarker

/-- The working-directory decision of handleChatCompletions as a pure
function of the request message list. -/
def decideWorkingDir (env : FsEnv) (msgs : List OAIMessage) : WDDecision :=
  let uam := msgs.filter (fun m => m.role != Role.system)
  match findPair env uam with
  | some (path, pruned) =>
    .resume path (msgs.filter (fun m => m.role == Role.system) ++ pruned)
  | none =>
    if uam.any isRealAssistant then .useDefault msgs
    else
      let userMsgs := uam.filter (fun m => m.role == Role.user)
      let lastUserText :=
        match userMsgs.getLast? with
        | some m => jsTrim (getTextContent m.content)
        | none => ""
      match resolvePath env lastUserText with
      | some r => if r ≠ "" ∧ isValidDirectory env r then .confirmed r else .invalid
      | none => .needPrompt

/-- The working directory finally given to spawnClaude for a decision
that invokes the agent: the confirmed path, or the configured default
when absent or empty (the JS or-else). -/
def invocationCwd (defaultCwd : String) : WDDecision → Option String
  | .useDefault _ => some defaultCwd
  | .resume p _ => some (if p = "" then defaultCwd else p)
  | _ => none

instance : Inhabited OAIMessage := ⟨⟨Role.user, .str ""⟩⟩

/-- Claim-side reading of a confirming user turn: its trimmed text
resolves to a truthy path that is an existing directory. -/
def confirmsDir (env : FsEnv) (m : OAIMessage) (p : String) : Prop :=
  resolvePath env (jsTrim (getTextContent m.content)) = some p ∧ p ≠ "" ∧
    isValidDirectory env p = true

instance (env : FsEnv) (m : OAIMessage) (p : String) : Decidable (confirmsDir env m p) := by
  unfold confirmsDir; infer_instance

/-- Claim-side reading of a confirmed pair at position i of the
user/assistant-only subsequence: a confirming user turn immediately
followed by an assistant turn. -/
def confirmedPairAt (env : FsEnv) (uam : List OAIMessage) (i : Nat) (p : String) : Prop :=
  i + 1 < uam.length ∧ (uam.getD i default).role = Role.user ∧
    (uam.getD (i + 1) default).role = Role.assistant ∧
    confirmsDir env (uam.getD i default) p

instance (env : FsEnv) (uam : List OAIMessage) (i : Nat) (p : String) :
    Decidable (confirmedPairAt env uam i p) := by
  unfold confirmedPairAt; infer_instance

/- ──────────────── Stream translator (src/completions.ts) ──────────────── -/

/-- The usage record carried by message_start and message_delta events;
absent fields are none, and a present zero is falsy in the source. -/
structure UsageRec where
  input_tokens : Option Nat
  output_tokens : Option Nat
deriving DecidableEq, Repr

/-- The delta record of a stream_event. -/
structure DeltaRec where
  type : Option String
  text : Option String
  stop_reason : Option String
deriving DecidableEq, Repr

/-- The message record of a message_start event. -/
structure MsgRec where
  usage : Option UsageRec
deriving DecidableEq, Repr

/-- The inner event of a stream_event line. -/
structure InnerEvent where
  type : String
  delta : Option DeltaRec
  message : Option MsgRec
  usage : Option UsageRec
deriving DecidableEq, Repr

/-- One parsed line of the agent's stream-json output. -/
inductive ClaudeLine where
  | streamEvent (event : InnerEvent)
  | result (session_id : String) (is_error : Bool) (result : Option String)
  | system
  | assistant
deriving DecidableEq, Repr

/-- JS truthiness of an optional number. -/
def truthyNat : Option Nat → Bool
  | some n => n != 0
  | none => false

/-- JS truthiness of an optional string. -/
def truthyStr : Option String → Bool
  | some s => s != ""
  | none => false

/-- The running usage counters of one translation. -/
structure UsageCtr where
  prompt_tokens : Nat
  completion_tokens : Nat
  total_tokens : Nat
deriving DecidableEq, Repr

/-- The usage updates shared by both translation modes: message_start
adds truthy counts, message_delta overwrites the completion count with a
truthy output count. -/
def applyUsage (u : UsageCtr) (e : InnerEvent) : UsageCtr :=
  let u1 :=
    if e.type = "message_start" then
      match e.message with
      | some msg =>
        match msg.usage with
        | some ur =>
          let p := if truthyNat ur.input_tokens then u.prompt_tokens + ur.input_tokens.getD 0
                   else u.prompt_tokens
          let c := if truthyNat ur.output_tokens then
                     u.completion_tokens + ur.output_tokens.getD 0
                   else u.completion_tokens
          { u with prompt_tokens := p, completion_tokens := c }
        | none => u
      | none => u
    else u
  if e.type = "message_delta" then
    match e.usage with
    | some ur =>
      if truthyNat ur.output_tokens then { u1 with completion_tokens := ur.output_tokens.getD 0 }
      else u1
    | none => u1
  else u1

/-- Whether an inner event is a truthy text delta of a content block. -/
def isTextDelta (e : InnerEvent) : Bool :=
  e.type == "content_block_delta" &&
    (match e.delta with
     | some d => d.type == some "text_delta" && truthyStr d.text
     | none => false)

/-- Whether an inner event is a message_delta carrying a truthy stop reason. -/
def isStopDelta (e : InnerEvent) : Bool :=
  e.type == "message_delta" &&
    (match e.delta with
     | some d => truthyStr d.stop_reason
     | none => false)

/-- The text of a text delta. -/
def deltaText (e : InnerEvent) : String :=
  match e.delta with
  | some d => d.text.getD ""
  | none => ""

/-- The stop reason of a message_delta. -/
def deltaStopReason (e : InnerEvent) : String :=
  match e.delta with
  | some d => d.stop_reason.getD ""
  | none => ""

/-- The finish reason of the wire format. -/
inductive FinishReason where
  | stop
  | length
deriving DecidableEq, Repr

/-- The accumulation state of handleNonStreaming. -/
structure NSState where
  assistantContent : String
  resultSessionId : Option String
  finishReason : FinishReason
  usage : UsageCtr
deriving DecidableEq, Repr

/-- The initial state of handleNonStreaming. -/
def initNS : NSState :=
  ⟨"", none, .stop, ⟨0, 0, 0⟩⟩

/-- One loop iteration of handleNonStreaming over a parsed line. -/
def stepNS (st : NSState) : ClaudeLine → NSState
  | .streamEvent e =>
    let st1 := { st with usage := applyUsage st.usage e }
    if isTextDelta e then
      { st1 with assistantContent := st1.assistantContent ++ deltaText e }
    else if isStopDelta e then
      { st1 with finishReason := if deltaStopReason e = "end_turn" then .stop else .length }
    else st1
  | .result sid isErr res =>
    let st1 := { st with resultSessionId := some sid }
    if isErr && truthyStr res then { st1 with assistantContent := res.getD "" } else st1
  | .system => st
  | .assistant => st

/-- The aggregated response of handleNonStreaming. -/
structure NSResponse where
  content : String
  finish_reason : FinishReason
  usage : Option UsageCtr
deriving DecidableEq, Repr

/-- handleNonStreaming of src/completions.ts, as a function of the parsed
event lines, the accumulated stderr, the messages given to the agent and
the session store: the aggregated response and the updated store. -/
def handleNonStreamingM (events : List ClaudeLine) (stderr : String)
    (messages : List OAIMessage) (store : Sessions) (now : Int) : NSResponse × Sessions :=
  let fin := events.foldl stepNS initNS
  let content :=
    if fin.assistantContent = "" ∧ stderr ≠ "" then "Error: " ++ jsTrim stderr
    else fin.assistantContent
  let total := fin.usage.prompt_tokens + fin.usage.completion_tokens
  let resp : NSResponse :=
    { content := content
      finish_reason := fin.finishReason
      usage :=
        if total > 0 then some ⟨fin.usage.prompt_tokens, fin.usage.completion_tokens, total⟩
        else none }
  match fin.resultSessionId with
  | some sid =>
    (resp, storeSession (messages ++ [⟨Role.assistant, .str content⟩]) sid now store)
  | none => (resp, store)

/-- One caller-facing chunk of the streamed wire format: the delta fields
and the optional finish reason and usage payloads. -/
structure Chunk where
  role : Option String
  content : Option String
  finish_reason : Option String
  usage : Option UsageCtr
deriving DecidableEq, Repr

/-- The accumulation state of handleStreaming. -/
structure StreamState where
  assistantContent : String
  resultSessionId : Option String
  usage : UsageCtr
deriving DecidableEq, Repr

/-- The initial state of handleStreaming. -/
def initStream : StreamState := ⟨"", none, ⟨0, 0, 0⟩⟩

/-- One loop iteration of handleStreaming: the chunks written for this
line and the updated state. -/
def stepStream (st : StreamState) : ClaudeLine → List Chunk × StreamState
  | .streamEvent e =>
    let st1 := { st with usage := applyUsage st.usage e }
    if isTextDelta e then
      ([⟨none, some (deltaText e), none, none⟩],
        { st1 with assistantContent := st1.assistantContent ++ deltaText e })
    else if isStopDelta e then
      let u2 : UsageCtr :=
        { st1.usage with
          total_tokens := st1.usage.prompt_tokens + st1.usage.completion_tokens }
      ([⟨none, none, some "stop", if u2.total_tokens > 0 then some u2 else none⟩],
        { st1 with usage := u2 })
    else ([], st1)
  | .result sid isErr res =>
    let st1 := { st with resultSessionId := some sid }
    if isErr && truthyStr res then
      ([⟨none, some ("\n\n[Error: " ++ res.getD "" ++ "]"), none, none⟩],
        { st1 with
          assistantContent := st1.assistantContent ++ "\n\n[Error: " ++ res.getD "" ++ "]" })
    else ([], st1)
  | .system => ([], st)
  | .assistant => ([], st)

/-- The event loop of handleStreaming: concatenated chunks and the final
state. -/
def runStream (st : StreamState) : List ClaudeLine → List Chunk × StreamState
  | [] => ([], st)
  | l :: ls =>
    let out := stepStream st l
    let rest := runStream out.2 ls
    (out.1 ++ rest.1, rest.2)

/-- JS String.prototype.includes. -/
def containsSub (s sub : String) : Bool :=
  s.data.tails.any (fun t => sub.data.isPrefixOf t)

/-- One server-sent-event frame: a JSON chunk or the end-of-stream
sentinel "[DONE]". -/
inductive SSEItem where
  | chunk (c : Chunk)
  | done
deriving DecidableEq, Repr

/-- handleStreaming of src/completions.ts with the connection open
throughout: the emitted frame sequence (opening role chunk, per-event
chunks, the stderr fallback chunk, the conditional final stop chunk and
the sentinel) together with the final accumulation state. -/
def handleStreamingItems (events : List ClaudeLine) (stderr : String) :
    List SSEItem × StreamState :=
  let run := runStream initStream events
  let afterFallback :=
    if run.2.assistantContent = "" ∧ stderr ≠ "" then
      ([(⟨none, some ("Error: " ++ jsTrim stderr), none, none⟩ : Chunk)],
        { run.2 with assistantContent := "Error: " ++ jsTrim stderr })
    else ([], run.2)
  let finalStop : List Chunk :=
    if ¬containsSub afterFallback.2.assistantContent "[Error:" = true ∨
        strStartsWith afterFallback.2.assistantContent "Error:" then
      [⟨none, none, some "stop", none⟩]
    else []
  (SSEItem.chunk ⟨some "assistant", none, none, none⟩ ::
      (run.1 ++ afterFallback.1 ++ finalStop).map SSEItem.chunk ++ [SSEItem.done],
    afterFallback.2)

/-- handleStreaming including the post-loop session storage. -/
def handleStreamingM (events : List ClaudeLine) (stderr : String)
    (messages : List OAIMessage) (store : Sessions) (now : Int) : List SSEItem × Sessions :=
  let items := handleStreamingItems events stderr
  match items.2.resultSessionId with
  | some sid =>
    (items.1,
      storeSession (messages ++ [⟨Role.assistant, .str items.2.assistantContent⟩]) sid now store)
  | none => (items.1, store)

/- ──────────────── Shared concrete fixtures ──────────────── -/

/-- A user message with plain text content. -/
def uMsg (t : String) : OAIMessage := ⟨Role.user, .str t⟩

/-- An assistant message with plain text content. -/
def aMsg (t : String) : OAIMessage := ⟨Role.assistant, .str t⟩

/-- A system message with plain text content. -/
def sMsg (t : String) : OAIMessage := ⟨Role.system, .str t⟩

/-- A concrete file-system environment in which exactly /tmp exists and
is a directory, normalization is the identity on the already-normal
paths used here, and symlink resolution is the identity. -/
def envTmp : FsEnv :=
  ⟨"/root", fun s => s, fun s => s == "/tmp", fun s => s == "/tmp", fun s => some s⟩

/-- A content_block_delta line carrying one text fragment. -/
def tdLine (t : String) : ClaudeLine :=
  .streamEvent ⟨"content_block_delta", some ⟨some "text_delta", some t, none⟩, none, none⟩

/-- A message_start line carrying an input token count. -/
def startLine (inp : Nat) : ClaudeLine :=
  .streamEvent ⟨"message_start", none, some ⟨some ⟨some inp, none⟩⟩, none⟩

/-- A message_delta line carrying a stop reason and an output token count. -/
def stopLine (r : String) (out : Nat) : ClaudeLine :=
  .streamEvent ⟨"message_delta", some ⟨none, none, some r⟩, none, some ⟨none, some out⟩⟩

/-- A message_delta line carrying only a stop reason. -/
def stopOnlyLine (r : String) : ClaudeLine :=
  .streamEvent ⟨"message_delta", some ⟨none, none, some r⟩, none, none⟩

/-- The event stream of the translation example: usage 10 in, three text
fragments, an end_turn stop with 3 output tokens, and a result line with
a session id. -/
def exampleEvents : List ClaudeLine :=
  [startLine 10, tdLine "Hel", tdLine "lo", tdLine "!", stopLine "end_turn" 3,
   .result "sess-1" false none]

/-- Claim-side reading of a line that contributes no assistant content:
not a truthy text delta and not an error-flagged result with text. -/
def noContentLine : ClaudeLine → Prop
  | .streamEvent e => isTextDelta e = false
  | .result _ isErr res => ¬(isErr = true ∧ truthyStr res = true)
  | .system => True
  | .assistant => True

/-- Claim-side reading of a line whose stop reason, if any, is end_turn. -/
def endTurnOnlyLine : ClaudeLine → Prop
  | .streamEvent e => isStopDelta e = true → deltaStopReason e = "end_turn"
  | _ => True

/-- A chunk finish reason is absent or the literal "stop". -/
def chunkFinishOk (c : Chunk) : Prop :=
  c.finish_reason = none ∨ c.finish_reason = some "stop"

/-- Whether an emitted frame is a chunk carrying a finish reason. -/
def isStopChunkItem : SSEItem → Bool
  | .chunk c => c.finish_reason.isSome
  | .done => false

/-- Whether an emitted frame is the bracketed error annotation chunk. -/
def isErrorChunkItem : SSEItem → Bool
  | .chunk c =>
    match c.content with
    | some t => strStartsWith t "\n\n[Error:"
    | none => false
  | .done => false

/-- Claim-side reading of an event allowed before the terminal part of a
well-formed stream: anything except a stop-reason message_delta and a
result line. -/
def isPreEvent : ClaudeLine → Prop
  | .streamEvent e => isStopDelta e = false
  | .result _ _ _ => False
  | .system => True
  | .assistant => True

/-- The truthy text fragments of a stream, in order. -/
def textsOf (events : List ClaudeLine) : List String :=
  events.foldr
    (fun l acc =>
      match l with
      | .streamEvent e => if isTextDelta e then deltaText e :: acc else acc
      | _ => acc) []

/-- Concatenation of a list of strings. -/
def strConcat : List String → String
  | [] => ""
  | t :: ts => t ++ strConcat ts

/-- The usage counters accumulated over the stream events of a list. -/
def usageFoldPre (u : UsageCtr) (events : List ClaudeLine) : UsageCtr :=
  events.foldl
    (fun acc l =>
      match l with
      | .streamEvent e => applyUsage acc e
      | _ => acc) u

/-- The event line of an optional terminal stop delta. -/
def stopLinesOf : Option InnerEvent → List ClaudeLine
  | some sd => [.streamEvent sd]
  | none => []

/-- The event line of an optional trailing result. -/
def resLinesOf : Option (String × Bool × Option String) → List ClaudeLine
  | some r => [.result r.1 r.2.1 r.2.2]
  | none => []

/-- Modelled from the claim: the frame sequence the amended claim
predicts for a well-formed stream, in order: the role-only opening
chunk, one content chunk per truthy text delta, on a terminal stop
reason one chunk carrying "stop" and the total usage when any tokens
were recorded, the bracketed error chunk of an error result, the stderr
fallback chunk when no assistant content was produced and stderr is
non-empty, the final stop chunk unless the aggregated content contains
"[Error:" without starting with "Error:", and the end-of-stream
sentinel last. -/
def specStreamItems (pre : List ClaudeLine) (stopOpt : Option InnerEvent)
    (resOpt : Option (String × Bool × Option String)) (stderr : String) : List SSEItem :=
  let texts := textsOf pre
  let uStop : List Chunk :=
    match stopOpt with
    | some sd =>
      let u := applyUsage (usageFoldPre ⟨0, 0, 0⟩ pre) sd
      let total := u.prompt_tokens + u.completion_tokens
      [⟨none, none, some "stop",
        if total > 0 then some ⟨u.prompt_tokens, u.completion_tokens, total⟩ else none⟩]
    | none => []
  let errText : Option String :=
    match resOpt with
    | some r =>
      if r.2.1 && truthyStr r.2.2 then some ("\n\n[Error: " ++ r.2.2.getD "" ++ "]") else none
    | none => none
  let errChunks : List Chunk :=
    match errText with
    | some t => [⟨none, some t, none, none⟩]
    | none => []
  let content1 := strConcat texts ++ errText.getD ""
  let fallback : List Chunk :=
    if content1 = "" ∧ stderr ≠ "" then [⟨none, some ("Error: " ++ jsTrim stderr), none, none⟩]
    else []
  let content2 := if content1 = "" ∧ stderr ≠ "" then "Error: " ++ jsTrim stderr else content1
  let finalStop : List Chunk :=
    if ¬containsSub content2 "[Error:" = true ∨ strStartsWith content2 "Error:" = true then
      [⟨none, none, some "stop", none⟩]
    else []
  SSEItem.chunk ⟨some "assistant", none, none, none⟩ ::
    (texts.map (fun t => (⟨none, some t, none, none⟩ : Chunk)) ++ uStop ++ errChunks ++
        fallback ++ finalStop).map SSEItem.chunk ++
    [SSEItem.done]

/- ──────────────── Round-trip lemmas: the parser inverts the serializer ──────────────── -/

theorem dropLit_round (l rest : List Char) : dropLit l (l ++ rest) = some rest := by
  induction l with
  | nil => rfl
  | cons c cs ih => simp [dropLit, ih]

theorem hexVal_hexChar (k : Nat) (hk : k < 16) : hexVal (hexChar k) = k := by
  have h : ∀ j : Fin 16, hexVal (hexChar j.val) = j.val := by decide
  exact h ⟨k, hk⟩

theorem parseStrBody_round (s rest : List Char) :
    parseStrBody (escapeChars s ++ '"' :: rest) = some (s, rest) := by
  induction s with
  | nil =>
    show parseStrBody ('"' :: rest) = _
    rw [parseStrBody.eq_def]
    simp
  | cons c cs ih =>
    show parseStrBody ((escChar c ++ escapeChars cs) ++ '"' :: rest) = _
    rw [List.append_assoc]
    by_cases h1 : c = '"'
    · simp only [escChar, h1, if_pos rfl, List.cons_append, List.nil_append]
      rw [parseStrBody.eq_def]
      simp [ih]
    · by_cases h2 : c = '\\'
      · simp only [escChar, h1, h2, if_neg, if_pos rfl, ite_true, ite_false,
          List.cons_append, List.nil_append]
        rw [parseStrBody.eq_def]
        simp [ih]
      · by_cases h3 : c = '\x08'
        · simp only [escChar, h1, h2, h3, ite_true, ite_false, List.cons_append,
            List.nil_append]
          rw [parseStrBody.eq_def]
          simp [ih, h3]
        · by_cases h4 : c = '\x09'
          · simp only [escChar, h1, h2, h3, h4, ite_true, ite_false, List.cons_append,
              List.nil_append]
            rw [parseStrBody.eq_def]
            simp [ih, h4]
          · by_cases h5 : c = '\x0a'
            · simp only [escChar, h1, h2, h3, h4, h5, ite_true, ite_false,
                List.cons_append, List.nil_append]
              rw [parseStrBody.eq_def]
              simp [ih, h5]
            · by_cases h6 : c = '\x0c'
              · simp only [escChar, h1, h2, h3, h4, h5, h6, ite_true, ite_false,
                  List.cons_append, List.nil_append]
                rw [parseStrBody.eq_def]
                simp [ih, h6]
              · by_cases h7 : c = '\x0d'
                · simp only [escChar, h1, h2, h3, h4, h5, h6, h7, ite_true, ite_false,
                    List.cons_append, List.nil_append]
                  rw [parseStrBody.eq_def]
                  simp [ih, h7]
                · by_cases h8 : c.toNat < 0x20
                  · have e1 : hexVal (hexChar (c.toNat / 16)) = c.toNat / 16 :=
                      hexVal_hexChar _ (by omega)
                    have e2 : hexVal (hexChar (c.toNat % 16)) = c.toNat % 16 :=
                      hexVal_hexChar _ (by omega)
                    have e0 : hexVal '0' = 0 := by decide
                    have ec : hexVal '0' * 4096 + hexVal '0' * 256 +
                        hexVal (hexChar (c.toNat / 16)) * 16 +
                        hexVal (hexChar (c.toNat % 16)) = c.toNat := by
                      rw [e0, e1, e2]; omega
                    simp only [escChar, h1, h2, h3, h4, h5, h6, h7, h8, ite_true,
                      ite_false, List.cons_append, List.nil_append]
                    rw [parseStrBody.eq_def]
                    simp [ih, ec, Char.ofNat_toNat]
                  · simp only [escChar, h1, h2, h3, h4, h5, h6, h7, h8, ite_true,
                      ite_false, List.cons_append, List.nil_append]
                    rw [parseStrBody.eq_def]
                    simp [ih, h1, h2]

theorem parseJString_round (l rest : List Char) :
    parseJString (jsonString l ++ rest) = some (l, rest) := by
  show parseJString (('"' :: escapeChars l ++ ['"']) ++ rest) = _
  simp only [List.cons_append, List.append_assoc, List.singleton_append]
  simp [parseJString, parseStrBody_round]

theorem roleOfChars_roleChars (r : Role) : roleOfChars (roleChars r) = some r := by
  cases r <;> decide

theorem partTypeOfChars_partTypeChars (t : PartType) :
    partTypeOfChars (partTypeChars t) = some t := by
  cases t <;> decide

theorem parseImageUrl_round (iu : ImageUrl) (rest : List Char) :
    parseImageUrl (serializeImageUrl iu ++ rest) = some (iu, rest) := by
  obtain ⟨url, detail⟩ := iu
  cases detail with
  | none =>
    simp [serializeImageUrl, serializeImageUrlBody, parseImageUrl, List.append_assoc,
      urlKey, detailKey, dropLit, parseJString_round]
  | some d =>
    simp [serializeImageUrl, serializeImageUrlBody, parseImageUrl, List.append_assoc,
      urlKey, detailKey, dropLit, parseJString_round]

theorem parsePart_round (p : OAIContentPart) (rest : List Char) :
    parsePart (serializePart p ++ rest) = some (p, rest) := by
  obtain ⟨ty, txt, img⟩ := p
  cases txt with
  | none =>
    cases img with
    | none =>
      simp [serializePart, serializePartBody, parsePart, List.append_assoc, typeKey,
        textKey, imageKey, dropLit, parseJString_round, partTypeOfChars_partTypeChars]
    | some iu =>
      simp [serializePart, serializePartBody, parsePart, List.append_assoc, typeKey,
        textKey, imageKey, dropLit, parseJString_round, partTypeOfChars_partTypeChars,
        parseImageUrl_round]
  | some t =>
    cases img with
    | none =>
      simp [serializePart, serializePartBody, parsePart, List.append_assoc, typeKey,
        textKey, imageKey, dropLit, parseJString_round, partTypeOfChars_partTypeChars]
    | some iu =>
      simp [serializePart, serializePartBody, parsePart, List.append_assoc, typeKey,
        textKey, imageKey, dropLit, parseJString_round, partTypeOfChars_partTypeChars,
        parseImageUrl_round]

theorem parsePartsAux_round (ps : List OAIContentPart) (hne : ps ≠ []) :
    ∀ fuel, ps.length ≤ fuel → ∀ rest,
      parsePartsAux fuel (serializePartsTail ps ++ ']' :: rest) = some (ps, rest) := by
  induction ps with
  | nil => exact absurd rfl hne
  | cons p ps ih =>
    intro fuel hf rest
    cases fuel with
    | zero => simp at hf
    | succ f =>
      cases ps with
      | nil =>
        simp [serializePartsTail, parsePartsAux, parsePart_round]
      | cons q qs =>
        have hrec := ih (by simp) f (by simp only [List.length_cons] at hf ⊢; omega) rest
        simp only [serializePartsTail, List.append_assoc, List.cons_append]
        simp [parsePartsAux, parsePart_round, hrec]

theorem serializePartsTail_head (p : OAIContentPart) (ps : List OAIContentPart) :
    ∃ t, serializePartsTail (p :: ps) = '\x7b' :: t := by
  cases ps with
  | nil => exact ⟨serializePartBody p, by simp [serializePartsTail, serializePart]⟩
  | cons q qs =>
    exact ⟨serializePartBody p ++ ',' :: serializePartsTail (q :: qs),
      by simp [serializePartsTail, serializePart]⟩

theorem parseContent_round (c : OAIContent) (fuel : Nat) (hf : contentFuel c ≤ fuel)
    (rest : List Char) : parseContent fuel (serializeContent c ++ rest) = some (c, rest) := by
  cases c with
  | str s =>
    show parseContent fuel (('"' :: escapeChars s.data ++ ['"']) ++ rest) = _
    simp only [List.cons_append, List.append_assoc, List.singleton_append]
    simp [parseContent, parseStrBody_round]
  | parts ps =>
    cases ps with
    | nil => simp [serializeContent, serializePartsTail, parseContent]
    | cons p ps =>
      obtain ⟨t, ht⟩ := serializePartsTail_head p ps
      have hp := parsePartsAux_round (p :: ps) (by simp) fuel (by simpa using hf) rest
      rw [ht] at hp
      show parseContent fuel (('[' :: serializePartsTail (p :: ps) ++ [']']) ++ rest) = _
      rw [ht]
      simp only [List.cons_append, List.append_assoc, List.singleton_append] at hp ⊢
      simp [parseContent, hp]

theorem parseMessage_round (m : OAIMessage) (fuel : Nat) (hf : contentFuel m.content ≤ fuel)
    (rest : List Char) : parseMessage fuel (serializeMessage m ++ rest) = some (m, rest) := by
  obtain ⟨role, c⟩ := m
  have hc := parseContent_round c fuel hf ('\x7d' :: rest)
  simp only [serializeMessage, serializeMessageBody, List.cons_append, List.append_assoc,
    List.singleton_append]
  simp [parseMessage, roleKey, contentKey, dropLit, parseJString_round,
    roleOfChars_roleChars, hc]

theorem parseMessagesAux_round (ms : List OAIMessage) (hne : ms ≠ []) :
    ∀ fuel, messagesFuel ms ≤ fuel → ∀ rest,
      parseMessagesAux fuel (serializeMessagesTail ms ++ ']' :: rest) = some (ms, rest) := by
  induction ms with
  | nil => exact absurd rfl hne
  | cons m ms ih =>
    intro fuel hf rest
    cases fuel with
    | zero => simp [messagesFuel] at hf
    | succ f =>
      cases ms with
      | nil =>
        have hm := parseMessage_round m (f + 1)
          (by simp [messagesFuel] at hf; omega) (']' :: rest)
        simp [serializeMessagesTail, parseMessagesAux, hm]
      | cons m2 ms2 =>
        have hm := parseMessage_round m (f + 1)
          (by simp [messagesFuel] at hf; omega)
          (',' :: (serializeMessagesTail (m2 :: ms2) ++ ']' :: rest))
        have hrec := ih (by simp) f (by simp [messagesFuel] at hf ⊢; omega) rest
        simp only [serializeMessagesTail, List.append_assoc, List.cons_append]
        simp [parseMessagesAux, hm, hrec]

theorem serializeMessagesTail_head (m : OAIMessage) (ms : List OAIMessage) :
    ∃ t, serializeMessagesTail (m :: ms) = '\x7b' :: t := by
  cases ms with
  | nil => exact ⟨serializeMessageBody m, by simp [serializeMessagesTail, serializeMessage]⟩
  | cons m2 ms2 =>
    exact ⟨serializeMessageBody m ++ ',' :: serializeMessagesTail (m2 :: ms2),
      by simp [serializeMessagesTail, serializeMessage]⟩

theorem parseMessagesTop_round (ms : List OAIMessage) (fuel : Nat)
    (hf : messagesFuel ms ≤ fuel) (rest : List Char) :
    parseMessagesTop fuel (serializeMessages ms ++ rest) = some (ms, rest) := by
  cases ms with
  | nil => simp [serializeMessages, serializeMessagesTail, parseMessagesTop]
  | cons m ms =>
    obtain ⟨t, ht⟩ := serializeMessagesTail_head m ms
    have hp := parseMessagesAux_round (m :: ms) (by simp) fuel hf rest
    rw [ht] at hp
    show parseMessagesTop fuel (('[' :: serializeMessagesTail (m :: ms) ++ [']']) ++ rest) = _
    rw [ht]
    simp only [List.cons_append, List.append_assoc, List.singleton_append] at hp ⊢
    simp [parseMessagesTop, hp]

/-- JSON.stringify is injective on message lists: two different
conversation contexts always serialize to different payloads. -/
theorem serializeMessages_injective (a b : List OAIMessage)
    (h : serializeMessages a = serializeMessages b) : a = b := by
  have ha := parseMessagesTop_round a (messagesFuel a + messagesFuel b)
    (Nat.le_add_right _ _) []
  have hb := parseMessagesTop_round b (messagesFuel a + messagesFuel b)
    (Nat.le_add_left _ _) []
  rw [h] at ha
  have hab := ha.symm.trans hb
  simpa using hab

theorem stringifyMessages_injective (a b : List OAIMessage)
    (h : stringifyMessages a = stringifyMessages b) : a = b := by
  apply serializeMessages_injective
  have := congrArg String.data h
  simpa [stringifyMessages] using this

theorem digest_combine_lt (l : List Nat) (hl : ∀ x ∈ l, x < 4294967296) :
    ∀ acc, l.foldl (fun a x => a * 4294967296 + x) acc < (acc + 1) * 4294967296 ^ l.length := by
  induction l with
  | nil => intro acc; simpa using Nat.lt_succ_self acc
  | cons x xs ih =>
    intro acc
    have hx : x < 4294967296 := hl x (by simp)
    have h1 := ih (fun y hy => hl y (by simp [hy])) (acc * 4294967296 + x)
    have h2 : acc * 4294967296 + x + 1 ≤ (acc + 1) * 4294967296 := by omega
    have h3 : (acc * 4294967296 + x + 1) * 4294967296 ^ xs.length ≤
        (acc + 1) * 4294967296 * 4294967296 ^ xs.length :=
      Nat.mul_le_mul_right _ h2
    have h4 : (acc + 1) * 4294967296 * 4294967296 ^ xs.length =
        (acc + 1) * 4294967296 ^ (x :: xs).length := by
      simp [List.length_cons, pow_succ]
      ring
    simp only [List.foldl_cons]
    exact lt_of_lt_of_le h1 (h4 ▸ h3)

theorem digestNat_lt (msg : List Nat) : digestNat msg < 2 ^ 256 := by
  have hmem : ∀ x ∈ digestWords msg, x < 4294967296 := by
    intro x hx
    simp only [digestWords, List.mem_map] at hx
    obtain ⟨i, _, rfl⟩ := hx
    exact Nat.mod_lt _ (by norm_num)
  have hlen : (digestWords msg).length = 8 := by simp [digestWords]
  have := digest_combine_lt (digestWords msg) hmem 0
  rw [hlen] at this
  simpa [digestNat] using this

theorem lookupSession_storeSession (ctx : List OAIMessage) (sid : String) (now : Int)
    (s : Sessions) (h : ctx ≠ []) :
    lookupSession ctx (storeSession ctx sid now s) = some sid := by
  have hlen : ¬ctx.length = 0 := by simpa using h
  simp [lookupSession, storeSession, hlen]

theorem confirmCandidate_eq_some (env : FsEnv) (m : OAIMessage) (p : String) :
    confirmCandidate env m = some p ↔ confirmsDir env m p := by
  unfold confirmCandidate confirmsDir
  cases hr : resolvePath env (jsTrim (getTextContent m.content)) with
  | none => simp
  | some r =>
    constructor
    · intro h
      by_cases h0 : r = ""
      · simp [h0] at h
      · by_cases hv : isValidDirectory env r = true
        · simp [h0, hv] at h
          subst h
          exact ⟨rfl, h0, hv⟩
        · simp [h0, hv] at h
    · rintro ⟨hp, hne, hv⟩
      injection hp with hrp
      subst hrp
      simp [hne, hv]

theorem confirmCandidate_eq_none (env : FsEnv) (m : OAIMessage) :
    confirmCandidate env m = none ↔ ∀ p, ¬confirmsDir env m p := by
  constructor
  · intro h p hc
    rw [← confirmCandidate_eq_some] at hc
    rw [h] at hc
    cases hc
  · intro h
    cases hc : confirmCandidate env m with
    | none => rfl
    | some r => exact absurd ((confirmCandidate_eq_some env m r).mp hc) (h r)

theorem confirmedPairAt_cons (env : FsEnv) (m : OAIMessage) (l : List OAIMessage) (i : Nat)
    (p : String) : confirmedPairAt env (m :: l) (i + 1) p ↔ confirmedPairAt env l i p := by
  unfold confirmedPairAt
  simp [List.getD_cons_succ, Nat.succ_lt_succ_iff]

theorem findPair_eq_some (env : FsEnv) :
    ∀ (l : List OAIMessage) (i : Nat) (p : String),
      confirmedPairAt env l i p →
      (∀ j q, j < i → ¬confirmedPairAt env l j q) →
      findPair env l = some (p, l.take i ++ l.drop (i + 2)) := by
  intro l
  induction l with
  | nil =>
    intro i p hc _
    exact absurd hc (by simp [confirmedPairAt])
  | cons m rest ih =>
    intro i p hc hmin
    cases i with
    | zero =>
      obtain ⟨hlen, hu, ha, hcd⟩ := hc
      simp only [List.getD_cons_zero] at hu hcd
      cases rest with
      | nil => simp at hlen
      | cons m2 rest2 =>
        simp only [List.getD_cons_succ, List.getD_cons_zero] at ha
        have hcand : confirmCandidate env m = some p :=
          (confirmCandidate_eq_some env m p).mpr hcd
        rw [findPair.eq_def]
        simp [hu, hcand, ha]
    | succ j =>
      have hshift : confirmedPairAt env rest j p :=
        (confirmedPairAt_cons env m rest j p).mp hc
      have hminr : ∀ k q, k < j → ¬confirmedPairAt env rest k q := by
        intro k q hk hck
        exact hmin (k + 1) q (by omega) ((confirmedPairAt_cons env m rest k q).mpr hck)
      have hrec := ih j p hshift hminr
      rw [findPair.eq_def]
      by_cases hu : m.role = Role.user
      · cases hcand : confirmCandidate env m with
        | none => simp [hu, hcand, hrec]
        | some r =>
          cases rest with
          | nil => exact absurd hshift (by simp [confirmedPairAt])
          | cons m2 rest2 =>
            by_cases ha2 : m2.role = Role.assistant
            · exfalso
              apply hmin 0 r (by omega)
              exact ⟨by simp, by simpa using hu, by simpa using ha2,
                (confirmCandidate_eq_some env m r).mp hcand⟩
            · simp [hu, hcand, ha2, hrec]
      · simp [hu, hrec]

theorem findPair_eq_none (env : FsEnv) :
    ∀ l : List OAIMessage, (∀ i p, ¬confirmedPairAt env l i p) → findPair env l = none := by
  intro l
  induction l with
  | nil => intro _; rw [findPair.eq_def]
  | cons m rest ih =>
    intro h
    have hrest : ∀ i p, ¬confirmedPairAt env rest i p := fun i p hc =>
      h (i + 1) p ((confirmedPairAt_cons env m rest i p).mpr hc)
    have hrec := ih hrest
    rw [findPair.eq_def]
    by_cases hu : m.role = Role.user
    · cases hcand : confirmCandidate env m with
      | none => simp [hu, hcand, hrec]
      | some r =>
        cases rest with
        | nil => simp [hu, hcand]
        | cons m2 rest2 =>
          by_cases ha2 : m2.role = Role.assistant
          · exact absurd (⟨by simp, by simpa using hu, by simpa using ha2,
              (confirmCandidate_eq_some env m r).mp hcand⟩ : confirmedPairAt env (m :: m2 :: rest2) 0 r)
              (h 0 r)
          · simp [hu, hcand, ha2, hrec]
    · simp [hu, hrec]

/- ──────────────── Claims ──────────────── -/

/-- Claim C1, counterexample: the digest function of the session store is
not injective: two one-message contexts that differ only in the content
field of their message collide, because the digest factors through the
finite set of 256-bit values while the contexts are infinitely many. -/
theorem hashMessages_collision_exists :
    ∃ s1 s2 : String, s1 ≠ s2 ∧
      hashMessages [⟨Role.user, .str s1⟩] = hashMessages [⟨Role.user, .str s2⟩] := by
  obtain ⟨m, n, hmn, heq⟩ :=
    Finite.exists_ne_map_eq_of_infinite
      (fun k : Nat =>
        (⟨digestNat (strBytes (stringifyMessages (unaryCtx k))), digestNat_lt _⟩ : Fin (2 ^ 256)))
  refine ⟨⟨List.replicate m 'a'⟩, ⟨List.replicate n 'a'⟩, ?_, ?_⟩
  · intro h
    apply hmn
    have hdata := congrArg String.data h
    have hlen := congrArg List.length hdata
    simpa using hlen
  · have hd : digestNat (strBytes (stringifyMessages (unaryCtx m))) =
        digestNat (strBytes (stringifyMessages (unaryCtx n))) := congrArg Fin.val heq
    simp only [unaryCtx] at hd
    exact congrArg
      (fun d => (⟨(List.range 64).map (fun i => hexChar (d / 16 ^ (63 - i) % 16))⟩ : String))
      hd

/-- Claim C1, amended: the digest is deterministic, and the serialized
payload that is hashed is injective on contexts: any two different
contexts, in particular two that differ in any message field, have
different payloads, so a digest collision can only come from the hash
compression itself, which no function into 256-bit values avoids. -/
theorem hashMessages_deterministic_payload_injective :
    (∀ C : List OAIMessage, hashMessages C = hashMessages C) ∧
    (∀ C1 C2 : List OAIMessage, C1 ≠ C2 → stringifyMessages C1 ≠ stringifyMessages C2) := by
  constructor
  · intro _
    rfl
  · intro a b hne h
    exact hne (stringifyMessages_injective a b h)

/-- Witness for the amended claim C1 at two concrete contexts differing
only in message content. -/
theorem hashMessages_deterministic_payload_injective_witness :
    stringifyMessages [uMsg "a"] ≠ stringifyMessages [uMsg "b"] :=
  hashMessages_deterministic_payload_injective.2 _ _ (by decide)

/-- Claim C7, counterexample: on the empty context, store followed by
lookup does not return the stored id, because lookupSession answers none
for an empty context even though storeSession recorded an entry for it. -/
theorem lookupSession_empty_after_store :
    lookupSession [] (storeSession [] "sid" 0 emptySessions) = none ∧
      (none : Option String) ≠ some "sid" := by
  exact ⟨rfl, by simp⟩

/-- Claim C7, amended: for every non-empty context, store followed
immediately by lookup returns the stored id; lookup on an empty context
returns none; and lookup on a context whose digest has no entry returns
none.  lookupSession is modelled as a pure function of the store, so it
cannot mutate it. -/
theorem sessionStore_lookup_spec :
    (∀ (ctx : List OAIMessage) (sid : String) (now : Int) (s : Sessions), ctx ≠ [] →
      lookupSession ctx (storeSession ctx sid now s) = some sid) ∧
    (∀ s : Sessions, lookupSession [] s = none) ∧
    (∀ (ctx : List OAIMessage) (s : Sessions), s (hashMessages ctx) = none →
      lookupSession ctx s = none) := by
  refine ⟨fun ctx sid now s h => lookupSession_storeSession ctx sid now s h, fun s => rfl,
    fun ctx s h => ?_⟩
  unfold lookupSession
  rw [h]
  simp

/-- Witness for the amended claim C7 at a concrete non-empty context. -/
theorem sessionStore_lookup_spec_witness :
    lookupSession [uMsg "x"] (storeSession [uMsg "x"] "sid-7" 5 emptySessions) = some "sid-7" :=
  sessionStore_lookup_spec.1 [uMsg "x"] "sid-7" 5 emptySessions (by decide)

/-- Claim C8: the sweep retains an entry exactly when it is present and
its age relative to now is at most the ttl; equivalently it removes
exactly the entries strictly older than the ttl, so an entry of age
ttl − ε is retained and one of age ttl + ε is removed. -/
theorem cleanupSessions_spec (ttl now : Int) (s : Sessions) (k : String) (e : SessionEntry) :
    cleanupSessions ttl now s k = some e ↔ (s k = some e ∧ now - e.createdAt ≤ ttl) := by
  unfold cleanupSessions
  cases hs : s k with
  | none => simp
  | some e2 =>
    by_cases hc : now - e2.createdAt > ttl
    · simp only [if_pos hc]
      constructor
      · intro h
        cases h
      · rintro ⟨he, hle⟩
        injection he with he
        subst he
        omega
    · simp only [if_neg hc]
      constructor
      · intro h
        refine ⟨h, ?_⟩
        injection h with h
        subst h
        omega
      · rintro ⟨h, _⟩
        exact h

/-- Claim C4: on the example stream (message_start with 10 input tokens,
text deltas "Hel", "lo", "!", an end_turn message_delta with 3 output
tokens, then a result with a session id), non-streaming translation
returns content "Hello!", finish reason stop and usage 10/3/13, and the
session store afterwards maps the digest of the original messages
extended with the produced assistant turn to that session id. -/
theorem nonStreaming_example_spec (msgs : List OAIMessage) (stderr : String)
    (store : Sessions) (now : Int) :
    handleNonStreamingM exampleEvents stderr msgs store now =
      ({ content := "Hello!", finish_reason := .stop, usage := some ⟨10, 3, 13⟩ },
        storeSession (msgs ++ [aMsg "Hello!"]) "sess-1" now store) ∧
    lookupSession (msgs ++ [aMsg "Hello!"])
      (handleNonStreamingM exampleEvents stderr msgs store now).2 = some "sess-1" := by
  have hfold : exampleEvents.foldl stepNS initNS =
      ⟨"Hello!", some "sess-1", .stop, ⟨10, 3, 0⟩⟩ := rfl
  have h1 : handleNonStreamingM exampleEvents stderr msgs store now =
      ({ content := "Hello!", finish_reason := .stop, usage := some ⟨10, 3, 13⟩ },
        storeSession (msgs ++ [aMsg "Hello!"]) "sess-1" now store) := by
    have hnc : ¬("Hello!" = "" ∧ stderr ≠ "") := by simp
    simp only [handleNonStreamingM, hfold, if_neg hnc]
    rfl
  refine ⟨h1, ?_⟩
  rw [h1]
  exact lookupSession_storeSession _ _ _ _ (by simp)

/-- Claim C5, counterexample: in non-streaming mode an error-flagged
result does not append a bracketed annotation to the aggregated content;
it replaces the content with the raw error text. -/
theorem nonStreaming_error_replaces :
    (handleNonStreamingM [tdLine "Hi", .result "s" true (some "boom")] "" [uMsg "q"]
        emptySessions 0).1.content = "boom" ∧
      "boom" ≠ "Hi\n\n[Error: boom]" :=
  ⟨rfl, by decide⟩

/-- Claim C5, amended: an error-flagged result with non-empty text is, in
streaming mode, emitted as one extra content chunk holding the bracketed
annotation and appended to the aggregated content; in non-streaming mode
it replaces the aggregated content with the raw error text. -/
theorem errorResult_annotation_spec (st : StreamState) (stn : NSState) (sid e : String)
    (he : e ≠ "") :
    (stepStream st (.result sid true (some e))).1 =
      [⟨none, some ("\n\n[Error: " ++ e ++ "]"), none, none⟩] ∧
    (stepStream st (.result sid true (some e))).2.assistantContent =
      st.assistantContent ++ ("\n\n[Error: " ++ e ++ "]") ∧
    (stepNS stn (.result sid true (some e))).assistantContent = e := by
  have ht : truthyStr (some e) = true := by simp [truthyStr, he]
  refine ⟨?_, ?_, ?_⟩ <;>
    simp [stepStream, stepNS, ht, String.append_assoc]

/-- Witness for the amended claim C5 at a concrete error result. -/
theorem errorResult_annotation_spec_witness :
    (stepNS initNS (.result "s" true (some "x"))).assistantContent = "x" :=
  (errorResult_annotation_spec initStream initNS "s" "x" (by decide)).2.2

/-- Claim C6, counterexample: a stream with no content events but with a
non-end_turn stop reason and non-empty stderr yields the stderr fallback
content with finish reason length, not stop. -/
theorem stderrFallback_not_stop :
    (handleNonStreamingM [stopOnlyLine "max_turns"] "oops" [] emptySessions 0).1 =
      { content := "Error: oops", finish_reason := .length, usage := none } ∧
      FinishReason.length ≠ FinishReason.stop :=
  ⟨rfl, by decide⟩

theorem nsFold_noContent (events : List ClaudeLine) :
    ∀ st : NSState, (∀ l ∈ events, noContentLine l) → (∀ l ∈ events, endTurnOnlyLine l) →
      (events.foldl stepNS st).assistantContent = st.assistantContent ∧
      ((events.foldl stepNS st).finishReason = st.finishReason ∨
        (events.foldl stepNS st).finishReason = .stop) := by
  induction events with
  | nil => exact fun st _ _ => ⟨rfl, Or.inl rfl⟩
  | cons l ls ih =>
    intro st hnc het
    have hstep : (stepNS st l).assistantContent = st.assistantContent ∧
        ((stepNS st l).finishReason = st.finishReason ∨ (stepNS st l).finishReason = .stop) := by
      cases l with
      | streamEvent e =>
        have hni : isTextDelta e = false := hnc (ClaudeLine.streamEvent e) (by simp)
        have hset := het (ClaudeLine.streamEvent e) (by simp)
        by_cases hsd : isStopDelta e = true
        · have hend : deltaStopReason e = "end_turn" := hset hsd
          simp [stepNS, hni, hsd, hend]
        · simp [stepNS, hni, hsd]
      | result sid isErr res =>
        have hnr := hnc (ClaudeLine.result sid isErr res) (by simp)
        have hcond : (isErr && truthyStr res) = false := by
          cases hie : isErr <;> cases htr : truthyStr res <;> simp_all [noContentLine]
        simp [stepNS, hcond]
      | system => exact ⟨rfl, Or.inl rfl⟩
      | assistant => exact ⟨rfl, Or.inl rfl⟩
    have hrec := ih (stepNS st l) (fun x hx => hnc x (by simp [hx]))
      (fun x hx => het x (by simp [hx]))
    simp only [List.foldl_cons]
    constructor
    · rw [hrec.1, hstep.1]
    · rcases hrec.2 with h | h
      · rw [h]
        exact hstep.2
      · exact Or.inr h

theorem streamFold_noContent (events : List ClaudeLine) :
    ∀ st : StreamState, (∀ l ∈ events, noContentLine l) →
      (runStream st events).2.assistantContent = st.assistantContent := by
  induction events with
  | nil => exact fun st _ => rfl
  | cons l ls ih =>
    intro st hnc
    have hstep : (stepStream st l).2.assistantContent = st.assistantContent := by
      cases l with
      | streamEvent e =>
        have hni : isTextDelta e = false := hnc (ClaudeLine.streamEvent e) (by simp)
        by_cases hsd : isStopDelta e = true
        · simp [stepStream, hni, hsd]
        · simp [stepStream, hni, hsd]
      | result sid isErr res =>
        have hnr := hnc (ClaudeLine.result sid isErr res) (by simp)
        have hcond : (isErr && truthyStr res) = false := by
          cases hie : isErr <;> cases htr : truthyStr res <;> simp_all [noContentLine]
        simp [stepStream, hcond]
      | system => rfl
      | assistant => rfl
    have hrec := ih (stepStream st l).2 (fun x hx => hnc x (by simp [hx]))
    simp only [runStream]
    rw [hrec, hstep]

/-- Claim C6, amended: when the stream contributes no assistant content
(no truthy text delta and no error-flagged result text), every stop
reason present is end_turn, and stderr is non-empty, the non-streaming
response content is "Error: " followed by the trimmed stderr with finish
reason stop, and the streaming mode aggregates the same fallback text
and emits it as a content chunk. -/
theorem stderrFallback_spec (events : List ClaudeLine) (stderr : String)
    (msgs : List OAIMessage) (store : Sessions) (now : Int)
    (hnc : ∀ l ∈ events, noContentLine l) (het : ∀ l ∈ events, endTurnOnlyLine l)
    (hs : stderr ≠ "") :
    (handleNonStreamingM events stderr msgs store now).1.content = "Error: " ++ jsTrim stderr ∧
    (handleNonStreamingM events stderr msgs store now).1.finish_reason = .stop ∧
    (handleStreamingItems events stderr).2.assistantContent = "Error: " ++ jsTrim stderr ∧
    SSEItem.chunk ⟨none, some ("Error: " ++ jsTrim stderr), none, none⟩ ∈
      (handleStreamingItems events stderr).1 := by
  obtain ⟨hc, hf⟩ := nsFold_noContent events initNS hnc het
  have hc0 : (events.foldl stepNS initNS).assistantContent = "" := by
    simpa [initNS] using hc
  have hf0 : (events.foldl stepNS initNS).finishReason = .stop := by
    rcases hf with h | h
    · simpa [initNS] using h
    · exact h
  have hsc : (runStream initStream events).2.assistantContent = "" := by
    simpa [initStream] using streamFold_noContent events initStream hnc
  refine ⟨?_, ?_, ?_, ?_⟩
  · simp only [handleNonStreamingM]
    rw [if_pos ⟨hc0, hs⟩]
    cases hres : (events.foldl stepNS initNS).resultSessionId <;> simp [hres]
  · simp only [handleNonStreamingM]
    cases hres : (events.foldl stepNS initNS).resultSessionId <;> simp [hres, hf0]
  · simp only [handleStreamingItems]
    rw [if_pos ⟨hsc, hs⟩]
  · simp only [handleStreamingItems]
    rw [if_pos ⟨hsc, hs⟩]
    simp

/-- Witness for the amended claim C6: an empty stream with stderr
"permission denied" yields content exactly "Error: permission denied"
and finish reason stop. -/
theorem stderrFallback_spec_witness :
    (handleNonStreamingM [] "permission denied" [] emptySessions 0).1.content =
      "Error: permission denied" ∧
    (handleNonStreamingM [] "permission denied" [] emptySessions 0).1.finish_reason = .stop := by
  have h := stderrFallback_spec [] "permission denied" [] emptySessions 0
    (fun l hl => absurd hl (List.not_mem_nil l)) (fun l hl => absurd hl (List.not_mem_nil l))
    (by decide)
  exact ⟨by rw [h.1]; rfl, h.2.1⟩

/-- Claim C2, counterexample: with a system message positioned after the
confirmed pair, the decision is Resume with the system messages moved to
the front of the forwarded list, which is not the message list with the
pair removed (order differs). -/
theorem decideWorkingDir_reorders_system :
    confirmedPairAt envTmp
        (([uMsg "/tmp", aMsg "ack", uMsg "hello", sMsg "s"] : List OAIMessage).filter
          (fun m => m.role != Role.system)) 0 "/tmp" ∧
    decideWorkingDir envTmp [uMsg "/tmp", aMsg "ack", uMsg "hello", sMsg "s"] =
      .resume "/tmp" [sMsg "s", uMsg "hello"] ∧
    WDDecision.resume "/tmp" [sMsg "s", uMsg "hello"] ≠
      WDDecision.resume "/tmp" [uMsg "hello", sMsg "s"] := by
  decide

/-- Claim C2, amended: when the earliest confirmed pair of the
user/assistant-only subsequence sits at position i with resolved path p,
the decision is Resume with p and the forwarded list made of the system
messages (in order) followed by the non-system messages with the pair
removed; when every system message precedes the pair this equals the
message list with the pair removed, as in the example. -/
theorem decideWorkingDir_resume_spec (env : FsEnv) (msgs : List OAIMessage) (i : Nat)
    (p : String)
    (hc : confirmedPairAt env (msgs.filter (fun m => m.role != Role.system)) i p)
    (hmin : ∀ j q, j < i →
      ¬confirmedPairAt env (msgs.filter (fun m => m.role != Role.system)) j q) :
    decideWorkingDir env msgs =
      .resume p
        (msgs.filter (fun m => m.role == Role.system) ++
          ((msgs.filter (fun m => m.role != Role.system)).take i ++
            (msgs.filter (fun m => m.role != Role.system)).drop (i + 2))) := by
  have hfp := findPair_eq_some env (msgs.filter (fun m => m.role != Role.system)) i p hc hmin
  simp only [decideWorkingDir, hfp]

/-- Witness for the amended claim C2 at the example of the claim. -/
theorem decideWorkingDir_resume_spec_witness :
    decideWorkingDir envTmp [uMsg "/tmp", aMsg "ack", uMsg "hello"] =
      .resume "/tmp" [uMsg "hello"] := by
  have h := decideWorkingDir_resume_spec envTmp [uMsg "/tmp", aMsg "ack", uMsg "hello"] 0 "/tmp"
    (by decide) (fun j q hj => absurd hj (Nat.not_lt_zero j))
  exact h.trans (by decide)

/-- Claim C3, counterexample: an assistant message that merely starts
with the confirmation marker prefix but is none of the three synthetic
marker texts is still treated as synthetic: with no confirmed pair the
decision is NeedPrompt, not UseDefault. -/
theorem markerPrefix_not_useDefault :
    decideWorkingDir envTmp [aMsg "âœ… fake", uMsg "hi"] = .needPrompt ∧
    (∀ fwd, WDDecision.needPrompt ≠ WDDecision.useDefault fwd) ∧
    getTextContent (aMsg "âœ… fake").content ≠ pathPromptText ∧
    getTextContent (aMsg "âœ… fake").content ≠ pathInvalidText ∧
    (∀ p, getTextContent (aMsg "âœ… fake").content ≠ pathConfirmedText p) := by
  refine ⟨by decide, ?_, by decide, by decide, ?_⟩
  · intro fwd h
    cases h
  intro p h
  have hd := congrArg (fun s : String => s.data.take 5) h
  simp only [pathConfirmedText] at hd
  rw [String.data_append, String.data_append,
    List.take_append_of_le_length (by simp),
    List.take_append_of_le_length (by decide)] at hd
  exact absurd hd (by decide)

/-- Claim C3, amended: with no confirmed pair, if some assistant message
exists whose text does not start with any of the three synthetic marker
prefixes (the confirmation, prompt and rejection markers), the decision
is UseDefault carrying the full message list unmodified, and the agent
is invoked with the configured default working directory. -/
theorem decideWorkingDir_useDefault_spec (env : FsEnv) (msgs : List OAIMessage)
    (hnp : ∀ i p, ¬confirmedPairAt env (msgs.filter (fun m => m.role != Role.system)) i p)
    (hreal : ∃ m ∈ msgs.filter (fun m => m.role != Role.system),
      m.role = Role.assistant ∧
      strStartsWith (getTextContent m.content) confirmedMarker = false ∧
      strStartsWith (getTextContent m.content) promptMarker = false ∧
      strStartsWith (getTextContent m.content) invalidMarker = false) :
    decideWorkingDir env msgs = .useDefault msgs ∧
    ∀ defaultCwd, invocationCwd defaultCwd (decideWorkingDir env msgs) = some defaultCwd := by
  have hfp := findPair_eq_none env (msgs.filter (fun m => m.role != Role.system)) hnp
  have hany : (msgs.filter (fun m => m.role != Role.system)).any isRealAssistant = true := by
    obtain ⟨m, hm, hrole, h1, h2, h3⟩ := hreal
    refine List.any_eq_true.mpr ⟨m, hm, ?_⟩
    simp [isRealAssistant, hrole, h1, h2, h3]
  have h1 : decideWorkingDir env msgs = .useDefault msgs := by
    simp only [decideWorkingDir, hfp, hany]
    rfl
  exact ⟨h1, fun d => by rw [h1]; rfl⟩

/-- Witness for the amended claim C3 at a pre-existing conversation with
one real assistant message. -/
theorem decideWorkingDir_useDefault_spec_witness :
    decideWorkingDir envTmp [aMsg "real answer", uMsg "hi"] =
      .useDefault [aMsg "real answer", uMsg "hi"] := by
  have h := decideWorkingDir_useDefault_spec envTmp [aMsg "real answer", uMsg "hi"]
    (fun i p hc => by
      obtain ⟨hlen, hu, _, _⟩ := hc
      have hl2 : (([aMsg "real answer", uMsg "hi"] : List OAIMessage).filter
          (fun m => m.role != Role.system)).length = 2 := by decide
      have hi : i = 0 := by omega
      subst hi
      exact absurd hu (by decide))
    ⟨aMsg "real answer", by decide, by decide, by decide, by decide, by decide⟩
  exact h.1

theorem stepStream_finishOk (st : StreamState) (l : ClaudeLine) (c : Chunk)
    (hc : c ∈ (stepStream st l).1) : chunkFinishOk c := by
  cases l with
  | streamEvent e =>
    by_cases ht : isTextDelta e = true
    · simp [stepStream, ht] at hc
      subst hc
      exact Or.inl rfl
    · by_cases hs : isStopDelta e = true
      · simp [stepStream, ht, hs] at hc
        subst hc
        exact Or.inr rfl
      · simp [stepStream, ht, hs] at hc
  | result sid isErr res =>
    by_cases hcond : (isErr && truthyStr res) = true
    · simp [stepStream, hcond] at hc
      subst hc
      exact Or.inl rfl
    · simp [stepStream, hcond] at hc
  | system => simp [stepStream] at hc
  | assistant => simp [stepStream] at hc

theorem runStream_finishOk (events : List ClaudeLine) :
    ∀ (st : StreamState) (c : Chunk), c ∈ (runStream st events).1 → chunkFinishOk c := by
  induction events with
  | nil => intro st c hc; simp [runStream] at hc
  | cons l ls ih =>
    intro st c hc
    simp only [runStream, List.mem_append] at hc
    rcases hc with h | h
    · exact stepStream_finishOk st l c h
    · exact ih (stepStream st l).2 c h

/-- Claim C10: in streaming mode every chunk that carries a finish reason
carries "stop" (for every terminal stop reason, including ones other than
end_turn); the non-streaming mapping instead maps a non-end_turn stop
reason to "length". -/
theorem streamingFinish_spec :
    (∀ (events : List ClaudeLine) (stderr : String) (c : Chunk),
      SSEItem.chunk c ∈ (handleStreamingItems events stderr).1 →
      ∀ f, c.finish_reason = some f → f = "stop") ∧
    (∀ (st : NSState) (r : String), r ≠ "" →
      (stepNS st (stopOnlyLine r)).finishReason =
        if r = "end_turn" then FinishReason.stop else FinishReason.length) := by
  constructor
  · intro events stderr c hc f hf
    have hok : chunkFinishOk c := by
      simp only [handleStreamingItems] at hc
      rcases List.mem_cons.mp hc with h | h2
      · injection h with h
        rw [h]
        exact Or.inl rfl
      rcases List.mem_append.mp h2 with hm | hd
      · obtain ⟨a, hamem, hfa⟩ := List.mem_map.mp hm
        injection hfa with hfa
        rw [← hfa]
        rcases List.mem_append.mp hamem with h3 | h3
        · rcases List.mem_append.mp h3 with h4 | h4
          · exact runStream_finishOk events initStream a h4
          · have ha : a = ⟨none, some ("Error: " ++ jsTrim stderr), none, none⟩ := by
              split_ifs at h4 <;> simpa using h4
            rw [ha]
            exact Or.inl rfl
        · have ha : a = ⟨none, none, some "stop", none⟩ := by
            split_ifs at h3 <;> simpa using h3
          rw [ha]
          exact Or.inr rfl
      · have : SSEItem.chunk c = SSEItem.done := by simpa using hd
        cases this
    rcases hok with h | h
    · rw [h] at hf
      cases hf
    · rw [h] at hf
      injection hf with hf
      exact hf.symm
  · intro st r hr
    have ht : truthyStr (some r) = true := by simp [truthyStr, hr]
    simp [stepNS, stopOnlyLine, isTextDelta, isStopDelta, deltaStopReason, ht]

/-- Witness for claim C10: a max_turns stop reason still maps to length in
non-streaming mode. -/
theorem streamingFinish_spec_witness :
    (stepNS initNS (stopOnlyLine "max_turns")).finishReason = FinishReason.length := by
  have h := streamingFinish_spec.2 initNS "max_turns" (by decide)
  simpa using h

/-- Claim C9, counterexample: a stream whose only content delta happens to
contain the text "[Error:" ends without any stop chunk even though no
error chunk was emitted, because the final stop chunk is keyed on the
aggregated content containing that marker. -/
theorem streaming_marker_suppresses_stop :
    (handleStreamingItems [tdLine "[Error: hi]"] "").1 =
      [SSEItem.chunk ⟨some "assistant", none, none, none⟩,
        SSEItem.chunk ⟨none, some "[Error: hi]", none, none⟩, SSEItem.done] ∧
    (handleStreamingItems [tdLine "[Error: hi]"] "").1.any isStopChunkItem = false ∧
    (handleStreamingItems [tdLine "[Error: hi]"] "").1.any isErrorChunkItem = false := by
  decide

theorem runStream_append (xs ys : List ClaudeLine) :
    ∀ st : StreamState,
      runStream st (xs ++ ys) =
        ((runStream st xs).1 ++ (runStream (runStream st xs).2 ys).1,
          (runStream (runStream st xs).2 ys).2) := by
  induction xs with
  | nil => intro st; simp [runStream]
  | cons x xs ih => intro st; simp [runStream, ih, List.append_assoc]

theorem isStopDelta_not_textDelta (e : InnerEvent) (h : isStopDelta e = true) :
    isTextDelta e = false := by
  simp only [isStopDelta, Bool.and_eq_true, beq_iff_eq] at h
  simp [isTextDelta, h.1]

theorem runStream_pre (pre : List ClaudeLine) :
    ∀ st : StreamState, (∀ l ∈ pre, isPreEvent l) →
      runStream st pre =
        ((textsOf pre).map (fun t => (⟨none, some t, none, none⟩ : Chunk)),
          { st with
            assistantContent := st.assistantContent ++ strConcat (textsOf pre),
            usage := usageFoldPre st.usage pre }) := by
  induction pre with
  | nil =>
    intro st _
    cases st
    simp [runStream, textsOf, strConcat, usageFoldPre]
  | cons l ls ih =>
    intro st hp
    have hl := hp l (by simp)
    have hrec := ih (stepStream st l).2 (fun x hx => hp x (by simp [hx]))
    cases l with
    | streamEvent e =>
      have hsd : isStopDelta e = false := hl
      by_cases ht : isTextDelta e = true
      · have hstep : stepStream st (.streamEvent e) =
            ([⟨none, some (deltaText e), none, none⟩],
              { st with
                assistantContent := st.assistantContent ++ deltaText e,
                usage := applyUsage st.usage e }) := by
          simp [stepStream, ht]
        simp only [hstep] at hrec
        simp only [runStream, hstep]
        rw [hrec]
        simp [textsOf, strConcat, usageFoldPre, ht, String.append_assoc]
      · have hstep : stepStream st (.streamEvent e) =
            ([], { st with usage := applyUsage st.usage e }) := by
          simp [stepStream, ht, hsd]
        simp only [hstep] at hrec
        simp only [runStream, hstep]
        rw [hrec]
        simp [textsOf, strConcat, usageFoldPre, ht]
    | result sid isErr res => exact absurd hl id
    | system =>
      simp only [stepStream] at hrec
      simp only [runStream, stepStream]
      rw [hrec]
      simp [textsOf, strConcat, usageFoldPre]
    | assistant =>
      simp only [stepStream] at hrec
      simp only [runStream, stepStream]
      rw [hrec]
      simp [textsOf, strConcat, usageFoldPre]

theorem string_empty_append (s : String) : "" ++ s = s := rfl

/-- Claim C9, amended: for a well-formed stream (text deltas and other
non-terminal events, then an optional stop-reason message_delta, then an
optional result) consumed with the connection open, the emitted frame
sequence is exactly: the role-only opening chunk first, then the content
chunks in delta order, then on a terminal stop reason a "stop" chunk
carrying total usage if any tokens were recorded, then the bracketed
error chunk of an error result, then the stderr fallback chunk if no
content was produced and stderr is non-empty, then a final stop chunk
unless the aggregated content contains "[Error:" and does not start with
"Error:" (the code keys this on the content marker, not on whether an
error chunk was emitted), and the end-of-stream sentinel last. -/
theorem streaming_chunk_order_spec (pre : List ClaudeLine) (stopOpt : Option InnerEvent)
    (resOpt : Option (String × Bool × Option String)) (stderr : String)
    (hpre : ∀ l ∈ pre, isPreEvent l)
    (hstop : ∀ sd, stopOpt = some sd → isStopDelta sd = true) :
    (handleStreamingItems (pre ++ stopLinesOf stopOpt ++ resLinesOf resOpt) stderr).1 =
      specStreamItems pre stopOpt resOpt stderr := by
  have hpre' := runStream_pre pre initStream hpre
  simp only [initStream] at hpre'
  cases stopOpt with
  | none =>
    cases resOpt with
    | none =>
      simp only [stopLinesOf, resLinesOf, List.append_nil, handleStreamingItems,
        specStreamItems, initStream, hpre']
      simp [runStream, strConcat, string_empty_append]
      try (split_ifs <;> simp_all [string_empty_append, String.append_assoc])
    | some r =>
      by_cases herr : (r.2.1 && truthyStr r.2.2) = true
      · simp only [stopLinesOf, resLinesOf, List.append_nil, handleStreamingItems,
          specStreamItems, runStream_append, hpre', initStream]
        simp [runStream, stepStream, herr, string_empty_append, String.append_assoc]
        try (split_ifs <;> simp_all [string_empty_append, String.append_assoc])
      · simp only [stopLinesOf, resLinesOf, List.append_nil, handleStreamingItems,
          specStreamItems, runStream_append, hpre', initStream]
        simp [runStream, stepStream, herr, string_empty_append, String.append_assoc]
        try (split_ifs <;> simp_all [string_empty_append, String.append_assoc])
  | some sd =>
    have hsd : isStopDelta sd = true := hstop sd rfl
    have htd := isStopDelta_not_textDelta sd hsd
    cases resOpt with
    | none =>
      simp only [stopLinesOf, resLinesOf, List.append_nil, handleStreamingItems,
        specStreamItems, runStream_append, initStream, hpre']
      simp [runStream, stepStream, hsd, htd, string_empty_append, String.append_assoc]
      try (split_ifs <;> simp_all [string_empty_append, String.append_assoc])
    | some r =>
      by_cases herr : (r.2.1 && truthyStr r.2.2) = true
      · simp only [stopLinesOf, resLinesOf, handleStreamingItems,
          specStreamItems, runStream_append, hpre', initStream]
        simp [runStream, stepStream, hsd, htd, herr, string_empty_append, String.append_assoc]
        try (split_ifs <;> simp_all [string_empty_append, String.append_assoc])
      · simp only [stopLinesOf, resLinesOf, handleStreamingItems,
          specStreamItems, runStream_append, hpre', initStream]
        simp [runStream, stepStream, hsd, htd, herr, string_empty_append, String.append_assoc]
        try (split_ifs <;> simp_all [string_empty_append, String.append_assoc])

/-- Witness for the amended claim C9 at a concrete well-formed stream:
one text delta, an end_turn stop delta, and a result line. -/
theorem streaming_chunk_order_spec_witness :
    (handleStreamingItems
        [tdLine "Hel",
          ClaudeLine.streamEvent ⟨"message_delta", some ⟨none, none, some "end_turn"⟩, none, none⟩,
          ClaudeLine.result "s" false none] "").1 =
      specStreamItems [tdLine "Hel"]
        (some ⟨"message_delta", some ⟨none, none, some "end_turn"⟩, none, none⟩)
        (some ("s", false, none)) "" := by
  have h := streaming_chunk_order_spec [tdLine "Hel"]
    (some ⟨"message_delta", some ⟨none, none, some "end_turn"⟩, none, none⟩)
    (some ("s", false, none)) ""
    (by
      intro l hl
      simp only [List.mem_singleton] at hl
      subst hl
      simp only [tdLine, isPreEvent]
      decide)
    (by
      intro sd h
      cases h
      decide)
  exact h
